import Mathlib

/-!
Verification of the Marknote markdown block parser.

The repository carries two implementations of "markdown text → ordered
block sequence":

* a hand-rolled binary (table / non-table) classifier in `preview.go`
  (`splitMarkdownBlocks`, `isSeparatorRow`, `parseTable`, `parseTableRow`,
  `renderTableBlock`, `renderMarkdown`), embedded below at top level;
* a structural variant built on the goldmark parse tree
  (`nodeToBlock`, `buildTableBlock`, `extractText`, `renderMarkdown`),
  embedded below in namespace `Gio`.  The goldmark library itself is
  external to the repository; its AST is modelled as an inductive type and
  its `Parse` entry point is abstracted as a function parameter.

Strings are modelled as `List Char`; a document is split into lines on
`'\n'` exactly as `strings.Split(content, "\n")` does.  Go's
`strings.TrimSpace` trims Unicode whitespace; only the ASCII whitespace
characters (space, tab, newline, vertical tab, form feed, carriage
return) are modelled, which is faithful on all ASCII input.
-/

/-- Convert a Lean string literal to the `List Char` representation used
throughout the development. -/
def chars (s : String) : List Char := s.toList

/-- The ASCII whitespace characters recognised by Go's
`unicode.IsSpace` (the non-ASCII Unicode space characters are not
modelled). -/
def isSpaceChar (c : Char) : Bool :=
  c = ' ' || c = '\t' || c = '\n' || c = Char.ofNat 11 || c = Char.ofNat 12 || c = '\r'

/-- Drop every leading character satisfying `p` — the left half of Go's
`strings.Trim*` family. -/
def trimLeftP (p : Char → Bool) (l : List Char) : List Char :=
  l.dropWhile p

/-- Drop every trailing character satisfying `p`. -/
def trimRightP (p : Char → Bool) (l : List Char) : List Char :=
  (l.reverse.dropWhile p).reverse

/-- Go `strings.TrimSpace`: drop all leading and trailing whitespace. -/
def trimSpace (l : List Char) : List Char :=
  trimRightP isSpaceChar (trimLeftP isSpaceChar l)

/-- Go `strings.Trim(s, string(c))` for a one-character cutset: drop all
leading and all trailing occurrences of `c`. -/
def trimChar (c : Char) (l : List Char) : List Char :=
  trimRightP (fun a => a = c) (trimLeftP (fun a => a = c) l)

/-- Go `strings.TrimRight(s, string(c))` for a one-character cutset. -/
def trimRightChar (c : Char) (l : List Char) : List Char :=
  trimRightP (fun a => a = c) l

/-- Go `strings.Split(s, string(sep))` for a one-character separator:
always returns at least one (possibly empty) field. -/
def goSplit (sep : Char) : List Char → List (List Char)
  | [] => [[]]
  | a :: rest =>
    match goSplit sep rest with
    | [] => [[a]]
    | h :: t => if a = sep then [] :: h :: t else (a :: h) :: t

/-- Go `strings.Contains(s, string(c))` for a one-character substring. -/
def goContains (c : Char) (l : List Char) : Bool :=
  l.contains c

/-- Go `strings.HasPrefix`. -/
def startsWith (pre l : List Char) : Bool :=
  pre.isPrefixOf l

/-- Go `strings.Join(lines, "\n")`. -/
def joinNL : List (List Char) → List Char
  | [] => []
  | [l] => l
  | l :: rest => l ++ '\n' :: joinNL rest

/-!
## `preview.go` — the binary (table / non-table) variant
-/

/-- The per-cell check inside `isSeparatorRow`'s loop (preview.go
126–139): the trimmed cell must be non-empty, consist only of `'-'` and
`':'`, and contain at least one `'-'`. -/
def cellOk (cell : List Char) : Bool :=
  let c := trimSpace cell
  if c = [] then false
  else if !(c.all fun ch => ch = '-' || ch = ':') then false
  else goContains '-' c

/-- `isSeparatorRow` (preview.go 117–141): trims the line, requires a
dash somewhere, strips all leading/trailing `'|'` (Go `strings.Trim`),
rejects the empty remainder, then checks every `'|'`-separated cell. -/
def isSeparatorRow (line : List Char) : Bool :=
  let t := trimSpace line
  if !(goContains '-' t) then false
  else
    let t2 := trimChar '|' t
    if t2 = [] then false
    else (goSplit '|' t2).all cellOk

/-- A blank line: `strings.TrimSpace(line) == ""`. -/
def blankLine (l : List Char) : Bool := trimSpace l = []

/-- A fence toggle line (preview.go 62–64): trimmed content starting
with three backticks or three tildes. -/
def isFenceToggle (line : List Char) : Bool :=
  let t := trimSpace line
  startsWith [Char.ofNat 96, Char.ofNat 96, Char.ofNat 96] t || startsWith ['~', '~', '~'] t

/-- Pass 1 of `splitMarkdownBlocks` (preview.go 58–67): each line is
tagged with the fence state *after* processing that line (`fenceActive`
is flipped before `inFence[i]` is assigned). -/
def markFences (active : Bool) : List (List Char) → List Bool
  | [] => []
  | l :: ls =>
    let active2 := if isFenceToggle l then !active else active
    active2 :: markFences active2 ls

/-- The `inFence` array of `splitMarkdownBlocks` (initial state: no open
fence). -/
def fenceFlags (lines : List (List Char)) : List Bool :=
  markFences false lines

/-- Pass 2 of `splitMarkdownBlocks` (preview.go 70–75): a line is a
separator exactly when it is outside every fence and `isSeparatorRow`
accepts it. -/
def separatorFlags (lines : List (List Char)) : List Bool :=
  (List.range lines.length).map fun i =>
    !((fenceFlags lines).getD i false) && isSeparatorRow (lines.getD i [])

/-- The upward walk of pass 3 (preview.go 82–87): starting just above
the separator index, mark consecutive non-blank lines until a blank line
or the start of the document. -/
def markAbove (lines : List (List Char)) : List Bool → Nat → List Bool
  | flags, 0 => flags
  | flags, i + 1 =>
    if blankLine (lines.getD i []) then flags
    else markAbove lines (flags.set i true) i

/-- The downward walk of pass 3 (preview.go 88–93), fuelled by the
number of remaining lines: starting just below the separator index, mark
consecutive non-blank lines until a blank line or the end. -/
def markBelow (lines : List (List Char)) : Nat → List Bool → Nat → List Bool
  | 0, flags, _ => flags
  | fuel + 1, flags, i =>
    if i < lines.length then
      if blankLine (lines.getD i []) then flags
      else markBelow lines fuel (flags.set i true) (i + 1)
    else flags

/-- Processing of one separator index in pass 3: mark the separator row
itself, then walk up and down. -/
def markSep (lines : List (List Char)) (flags : List Bool) (sepIdx : Nat) : List Bool :=
  markBelow lines lines.length (markAbove lines (flags.set sepIdx true) sepIdx) (sepIdx + 1)

/-- The separator indices found by pass 2.  Go iterates the
`separatorAt` map in unspecified order; marking only ever sets flags to
`true`, so the ascending order used here is observationally the same. -/
def sepIndices (lines : List (List Char)) : List Nat :=
  (List.range lines.length).filter fun i => (separatorFlags lines).getD i false

/-- The `isTableLine` array produced by pass 3 (preview.go 79–94). -/
def tableFlags (lines : List (List Char)) : List Bool :=
  (sepIndices lines).foldl (markSep lines) (List.replicate lines.length false)

/-- `mdBlock` (preview.go 43–46): a run of consecutive lines that are
all table lines or all non-table lines. -/
structure mdBlock where
  isTable : Bool
  lines : List (List Char)
deriving DecidableEq, Repr

/-- Pass 4 of `splitMarkdownBlocks` (preview.go 97–111): group
consecutive same-flag lines; the trailing run is always emitted (the
accumulating run is never empty). -/
def groupRuns (curTable : Bool) (cur : List (List Char)) :
    List ((List Char) × Bool) → List mdBlock
  | [] => [⟨curTable, cur⟩]
  | (l, f) :: rest =>
    if f = curTable then groupRuns curTable (cur ++ [l]) rest
    else ⟨curTable, cur⟩ :: groupRuns f [l] rest

/-- `splitMarkdownBlocks` (preview.go 52–113). -/
def splitMarkdownBlocks (content : List Char) : List mdBlock :=
  let lines := goSplit '\n' content
  match lines.zip (tableFlags lines) with
  | [] => []
  | (l0, f0) :: rest => groupRuns f0 [l0] rest

/-- `parseTableRow` (preview.go 208–217): trim the line, strip all
leading/trailing `'|'`, split on `'|'`, trim each cell. -/
def parseTableRow (line : List Char) : List (List Char) :=
  (goSplit '|' (trimChar '|' (trimSpace line))).map trimSpace

/-- The accumulator of `parseTable`'s loop (preview.go 180–199):
`separatorSeen` plus the three named results. -/
structure PTState where
  separatorSeen : Bool
  headers : List (List Char)
  dataRows : List (List (List Char))
  numCols : Nat
deriving DecidableEq, Repr

/-- One iteration of `parseTable`'s loop (preview.go 182–199): skip
lines without `'|'`, consume separator rows, store every pre-separator
row as the (overwritten) header, append post-separator rows, and track
the maximum cell count. -/
def parseTableStep (st : PTState) (line : List Char) : PTState :=
  if !(goContains '|' line) then st
  else if isSeparatorRow line then { st with separatorSeen := true }
  else
    let cells := parseTableRow line
    let st' :=
      if !st.separatorSeen then { st with headers := cells }
      else { st with dataRows := st.dataRows ++ [cells] }
    if cells.length > st'.numCols then { st' with numCols := cells.length } else st'

/-- `parseTable` (preview.go 180–204), including the final
`len(headers) > numCols` adjustment. -/
def parseTable (lines : List (List Char)) : PTState :=
  let st := lines.foldl parseTableStep ⟨false, [], [], 0⟩
  if st.headers.length > st.numCols then { st with numCols := st.headers.length } else st

/-- `cellAt` (preview.go 220–225): `cells[i]` or `""`. -/
def cellAt (cells : List (List Char)) (i : Nat) : List Char :=
  if i < cells.length then cells.getD i [] else []

/-- A rendered element of the Fyne preview: either a rich-text widget
holding the (trimmed, joined) non-table run, or the table widget grid —
one label per column slot, missing trailing cells padded to `""` by
`cellAt` at render time. -/
inductive RenderObj where
  | richText (text : List Char)
  | tableGrid (headerCells : List (List Char)) (rowCells : List (List (List Char)))
      (numCols : Nat)
deriving DecidableEq, Repr

/-- `renderTableBlock` (preview.go 145–176): `nil` when the parsed
column count is zero, otherwise the grid of `cellAt`-padded header and
data labels. -/
def renderTableBlock (lines : List (List Char)) : Option RenderObj :=
  let st := parseTable lines
  if st.numCols = 0 then none
  else
    some (.tableGrid
      ((List.range st.numCols).map fun i => cellAt st.headers i)
      (st.dataRows.map fun row => (List.range st.numCols).map fun i => cellAt row i)
      st.numCols)

/-- The per-block body of `renderMarkdown`'s loop (preview.go 25–38):
table blocks go through `renderTableBlock` (dropped when it returns
`nil`), non-table blocks become one rich-text object unless the trimmed
joined text is empty. -/
def blockToObj (b : mdBlock) : Option RenderObj :=
  if b.isTable then renderTableBlock b.lines
  else
    let text := trimSpace (joinNL b.lines)
    if text = [] then none else some (.richText text)

/-- `renderMarkdown` (preview.go 19–40): empty output on
whitespace-only input, otherwise the per-block objects in order. -/
def renderMarkdown (content : List Char) : List RenderObj :=
  if trimSpace content = [] then []
  else (splitMarkdownBlocks content).filterMap blockToObj

/-- The preview-relevant state of the Fyne `App`: the objects currently
held by the preview VBox. -/
structure AppState where
  previewBox : List RenderObj
deriving DecidableEq, Repr

/-- `updatePreview` (preview.go 12–15): the preview VBox contents are
wholesale replaced by `renderMarkdown(content)`. -/
def updatePreview (a : AppState) (content : List Char) : AppState :=
  { a with previewBox := renderMarkdown content }

/-!
## The structural (goldmark) variant

The goldmark parser is an external library; only the repository's own
mapping code (`renderMarkdown`, `nodeToBlock`, `buildTableBlock`,
`extractText`, `extractCodeLines`) is embedded.  The goldmark AST is
modelled by inductive types, and goldmark's `Parse` is abstracted as a
function argument of `Gio.renderMarkdown`.
-/

namespace Gio

mutual
/-- An inline node of the goldmark AST, as far as `extractText`
distinguishes them: `ast.Text` (with its segment value and line-break
flags), `ast.String`, `ast.RawHTML`, or any other container node whose
children are recursed into. -/
inductive Inline where
  | text (s : List Char) (hardBreak softBreak : Bool)
  | str (s : List Char)
  | rawHtml
  | node (children : InlineList)

/-- A sibling chain of inline nodes (`FirstChild`/`NextSibling`). -/
inductive InlineList where
  | nil
  | cons (hd : Inline) (tl : InlineList)
end

mutual
/-- The contribution of one child inside `extractText`'s loop (part_001
150–164): a `Text` segment contributes its bytes plus one newline when
its hard- or soft-break flag is set, a `String` its value, `RawHTML`
nothing, and any other node its own (recursively trimmed)
`extractText`. -/
def extractInline : Inline → List Char
  | .text s hb sb => s ++ (if hb || sb then ['\n'] else [])
  | .str s => s
  | .rawHtml => []
  | .node cs => trimRightP isSpaceChar (trimLeftP isSpaceChar (extractInlines cs))

/-- The builder of `extractText` (part_001 149–164) over a sibling
chain. -/
def extractInlines : InlineList → List Char
  | .nil => []
  | .cons hd tl => extractInline hd ++ extractInlines tl
end

/-- `extractText` (part_001 148–166): the flattened children text,
trimmed. -/
def extractText (inls : InlineList) : List Char :=
  trimSpace (extractInlines inls)

/-- `extractCodeLines` (part_001 168–175): the concatenated line
segments with trailing newlines trimmed. -/
def extractCodeLines (raw : List Char) : List Char :=
  trimRightChar '\n' raw

/-- One row of a goldmark table node: the `TableHeader` flag and the
cell contents (each cell's children handed to `extractText`). -/
structure TableRow where
  isHeader : Bool
  cells : List InlineList

/-- A top-level node of the goldmark AST, as far as `nodeToBlock`
distinguishes them.  `list` carries goldmark's `ast.List.Start` field,
which the repository's code never reads; `listItem` content is
abstracted to the inline sequence that `extractText` flattens.  A
`fencedCode`/`indentedCode` node carries the concatenation of its line
segments (goldmark's `Lines()`), which is what `extractCodeLines`
reads. -/
inductive AstNode where
  | heading (level : Nat) (inls : InlineList)
  | paragraph (inls : InlineList)
  | fencedCode (raw : List Char)
  | indentedCode (raw : List Char)
  | thematicBreak
  | blockquote (inls : InlineList)
  | list (ordered : Bool) (start : Nat) (children : List AstNode)
  | listItem (inls : InlineList)
  | table (rows : List TableRow)
  | other

/-- `listItemBlock` (part_001 58–62). -/
structure ListItemB where
  indent : Nat
  bullet : List Char
  body : List Char
deriving DecidableEq, Repr

/-- A `renderedBlock` of the Gio preview (part_001 33–66), identified
by its data rather than its `Layout` method. -/
inductive Block where
  | heading (level : Nat) (body : List Char)
  | paragraph (body : List Char)
  | code (code : List Char)
  | hr
  | blockquote (body : List Char)
  | listGroup (items : List ListItemB)
  | table (headers : List (List Char)) (rows : List (List (List Char))) (numCols : Nat)
deriving DecidableEq, Repr

/-- `tableBlock` (part_001 48–52) while being built. -/
structure TB where
  headers : List (List Char)
  rows : List (List (List Char))
  numCols : Nat
deriving DecidableEq, Repr

/-- One iteration of `buildTableBlock`'s row loop (part_001 183–196):
extract the row's cells, raise the running maximum cell count, then
store a header row's cells as `headers` and append every other row as a
data row. -/
def buildTableStep (tb : TB) (row : TableRow) : TB :=
  let cells := row.cells.map extractText
  let tb' := if cells.length > tb.numCols then { tb with numCols := cells.length } else tb
  if row.isHeader then { tb' with headers := cells }
  else { tb' with rows := tb'.rows ++ [cells] }

/-- `buildTableBlock` (part_001 181–198): fold over the table node's
rows. -/
def buildTableBlock (rows : List TableRow) : TB :=
  rows.foldl buildTableStep ⟨[], [], 0⟩

/-- The bullet "• " used for unordered list items (part_001 125). -/
def dotBullet : List Char := [Char.ofNat 8226, ' ']

/-- The bullet `fmt.Sprintf("%d. ", counter)` used for ordered list
items (part_001 127). -/
def numBullet (counter : Nat) : List Char :=
  Nat.toDigits 10 counter ++ ['.', ' ']

/-- The child loop of `nodeToBlock`'s `ast.List` case (part_001
117–136): non-`ListItem` children are skipped; the 1-based counter
advances only on ordered items. -/
def listLoop (ordered : Bool) (listDepth : Nat) : Nat → List AstNode → List ListItemB
  | _, [] => []
  | counter, .listItem inls :: rest =>
    let bullet := if ordered then numBullet counter else dotBullet
    ⟨listDepth, bullet, extractText inls⟩ ::
      listLoop ordered listDepth (if ordered then counter + 1 else counter) rest
  | counter, _ :: rest => listLoop ordered listDepth counter rest

/-- `nodeToBlock` (part_001 97–142): node types with no case map to
`nil` (`none`); a table node always maps to the built table block. -/
def nodeToBlock (n : AstNode) (listDepth : Nat) : Option Block :=
  match n with
  | .heading lv inls => some (.heading lv (extractText inls))
  | .paragraph inls => some (.paragraph (extractText inls))
  | .fencedCode raw => some (.code (extractCodeLines raw))
  | .indentedCode raw => some (.code (extractCodeLines raw))
  | .thematicBreak => some .hr
  | .blockquote inls => some (.blockquote (extractText inls))
  | .list ordered _start children =>
    some (.listGroup (listLoop ordered listDepth 1 children))
  | .table rows =>
    let tb := buildTableBlock rows
    some (.table tb.headers tb.rows tb.numCols)
  | .listItem _ => none
  | .other => none

/-- `renderMarkdown` (part_001 80–95): empty on whitespace-only input,
otherwise map `nodeToBlock` over the top-level children of the goldmark
document, dropping `nil` results.  `parse` stands for the external
goldmark parser (`mdParser.Parser().Parse`), which is read-only
configuration shared by every call. -/
def renderMarkdown (parse : List Char → List AstNode) (content : List Char) : List Block :=
  if trimSpace content = [] then []
  else (parse content).filterMap (fun n => nodeToBlock n 0)

/-- Wrap a plain string in a single `Text` inline. -/
def txt (s : String) : InlineList :=
  .cons (.text (chars s) false false) .nil

end Gio

/-!
## Spec-side definitions

These definitions follow the wording of the specification (not the
source); they exist to be compared with the source-derived definitions
above.
-/

/-- The specification's per-cell condition on a separator row: the
cell, after trimming, is non-empty, consists exclusively of `'-'` and
`':'`, and contains at least one `'-'`. -/
def specCellValid (cell : List Char) : Bool :=
  let c := trimSpace cell
  !c.isEmpty && (c.all fun ch => ch = '-' || ch = ':') && goContains '-' c

/-- Strip at most one leading `'|'`. -/
def dropLeadPipe : List Char → List Char
  | '|' :: rest => rest
  | l => l

/-- Strip at most one trailing `'|'`. -/
def dropTrailPipe (l : List Char) : List Char :=
  (dropLeadPipe l.reverse).reverse

/-- The claim's separator condition, word for word: after trimming
whitespace and stripping AT MOST ONE leading and one trailing `'|'`,
splitting on `'|'` yields a non-empty sequence of cells that are all
valid. -/
def specSeparatorRowOne (line : List Char) : Bool :=
  let cells := goSplit '|' (dropTrailPipe (dropLeadPipe (trimSpace line)))
  !cells.isEmpty && cells.all specCellValid

/-- The amended separator condition: as the claim, but stripping ALL
leading and trailing `'|'` characters (Go `strings.Trim`). -/
def specSeparatorRowAll (line : List Char) : Bool :=
  let cells := goSplit '|' (trimChar '|' (trimSpace line))
  !cells.isEmpty && cells.all specCellValid

/-- The lines of a table run that contain a `'|'` — the only lines
`parseTable` does not skip. -/
def pipeLines (lines : List (List Char)) : List (List Char) :=
  lines.filter fun l => goContains '|' l

/-- The `'|'`-containing non-separator lines before the first separator
row: the candidates successively stored into `parseTable`'s header. -/
def headerCandidates (lines : List (List Char)) : List (List Char) :=
  (pipeLines lines).takeWhile fun l => !(isSeparatorRow l)

/-- The `'|'`-containing non-separator lines from the first separator
row on: the lines `parseTable` appends as data rows, in order. -/
def dataLines (lines : List (List Char)) : List (List Char) :=
  ((pipeLines lines).dropWhile fun l => !(isSeparatorRow l)).filter fun l => !(isSeparatorRow l)

/-- All `'|'`-containing non-separator lines of a table run, as parsed
rows — every row `parseTable` processes, the overwritten header
candidates included. -/
def processedRows (lines : List (List Char)) : List (List (List Char)) :=
  (lines.filter fun l => goContains '|' l && !(isSeparatorRow l)).map parseTableRow

/-- The maximum cell count over a sequence of rows. -/
def maxCells (rows : List (List (List Char))) : Nat :=
  rows.foldl (fun m r => max m r.length) 0

/-- The fence state after the classifier has processed the first `i`
lines (`false`: outside a fence). -/
def fenceStateAfter (lines : List (List Char)) (i : Nat) : Bool :=
  (lines.take i).foldl (fun s l => if isFenceToggle l then !s else s) false

/-- The contents of the `ListItem` children of a list node, in child
order — the items `nodeToBlock`'s list loop keeps. -/
def Gio.itemContents (cs : List Gio.AstNode) : List Gio.InlineList :=
  cs.filterMap fun n =>
    match n with
    | .listItem il => some il
    | _ => none

-- ===== end of definitions; spec-side definitions are inserted above this line =====

/-!
## Basic concrete evaluations of the embedding
-/

example : goSplit '|' (chars "a||b") = [chars "a", [], chars "b"] := by decide

example : goSplit '|' [] = [[]] := by decide

example : trimChar '|' (chars "||-a-||") = chars "-a-" := by decide

example : trimSpace (chars "  a b\t") = chars "a b" := by decide

example : splitMarkdownBlocks (chars "a\n\n|x|y|\n|---|---|\n|1|2|") =
  [⟨false, [chars "a", []]⟩, ⟨true, [chars "|x|y|", chars "|---|---|", chars "|1|2|"]⟩] := by
  decide

example : isSeparatorRow (chars "---|---") = true := by decide

example : isSeparatorRow (chars "|   |") = false := by decide

example : parseTable [chars "a|b|c", chars "---|---|---", chars "x|y"] =
  ⟨true, [chars "a", chars "b", chars "c"], [[chars "x", chars "y"]], 3⟩ := by decide

example : renderMarkdown (chars "hi\n\n|a|b|\n|---|---|\n|1|2|") =
  [.richText (chars "hi"),
   .tableGrid [chars "a", chars "b"] [[chars "1", chars "2"]] 2] := by decide

example :
    Gio.nodeToBlock (.list true 7 [.listItem (Gio.txt "foo"), .listItem (Gio.txt "bar")]) 0 =
    some (.listGroup [⟨0, chars "1. ", chars "foo"⟩, ⟨0, chars "2. ", chars "bar"⟩]) := by
  decide

example :
    Gio.buildTableBlock
      [⟨true, [Gio.txt "a", Gio.txt "b"]⟩, ⟨false, [Gio.txt "1"]⟩] =
    ⟨[chars "a", chars "b"], [[chars "1"]], 2⟩ := by decide

/-!
## Claim C6 — empty input, and C9 — determinism
-/

/-- Claim C6: for every input that is empty or consists only of
whitespace, `renderMarkdown` — in both the binary (Fyne) and the
structural (Gio/goldmark) variant — returns the empty block sequence:
zero blocks, not a single empty block. -/
theorem claim_C6 (content : List Char) (parse : List Char → List Gio.AstNode)
    (h : trimSpace content = []) :
    renderMarkdown content = [] ∧ Gio.renderMarkdown parse content = [] := by
  constructor
  · simp [renderMarkdown, h]
  · simp [Gio.renderMarkdown, h]

/-- Witness for C6 at the concrete whitespace-only input `"  \n\t "`. -/
theorem claim_C6_witness :
    trimSpace (chars "  \n\t ") = [] ∧
      renderMarkdown (chars "  \n\t ") = [] ∧
      Gio.renderMarkdown (fun _ => []) (chars "  \n\t ") = [] := by
  refine ⟨by decide, ?_⟩
  have h := claim_C6 (chars "  \n\t ") (fun _ => []) (by decide)
  exact ⟨h.1, h.2⟩

/-- Claim C9: parsing is deterministic and stateless.  In the
embedding every parsing function is pure, so two invocations on the
same text are definitionally equal; the meaningful residue of the claim
is that `updatePreview` replaces the preview state wholesale, so the
preview contents after an update depend only on the given text and
never on state surviving from a previous call. -/
theorem claim_C9 (a b : AppState) (content : List Char) :
    (updatePreview a content).previewBox = (updatePreview b content).previewBox ∧
      (updatePreview a content).previewBox = renderMarkdown content ∧
      fenceFlags (goSplit '\n' content) = fenceFlags (goSplit '\n' content) ∧
      tableFlags (goSplit '\n' content) = tableFlags (goSplit '\n' content) := by
  exact ⟨rfl, rfl, rfl, rfl⟩

/-!
## Claim C7 — zero-column tables
-/

/-- Counterexample to claim C7: in the structural variant,
`nodeToBlock` never returns `nil` for a table node, so a table node
that produced no header or data cells (column count zero) still yields
a `Table` block in the output sequence — here a goldmark document whose
single top-level node is an empty table produces the block sequence
`[Table [] [] 0]`, not `[]`. -/
theorem claim_C7_counterexample :
    Gio.renderMarkdown (fun _ => [.table []]) (chars "x") = [.table [] [] 0] := by decide

/-- Claim C7, amended: in the binary variant a table run whose parsed
column count is zero yields no `Table` block — `renderTableBlock`
returns `nil` and `renderMarkdown` drops it, so every table grid in the
output has a non-zero column count.  In the structural variant,
however, `nodeToBlock` maps every table node to a `Table` block built
by `buildTableBlock`, zero-column nodes included. -/
theorem claim_C7 :
    (∀ lines, (parseTable lines).numCols = 0 → renderTableBlock lines = none) ∧
      (∀ content headerCells rowCells numCols,
        RenderObj.tableGrid headerCells rowCells numCols ∈ renderMarkdown content →
        numCols ≠ 0) ∧
      (∀ rows listDepth,
        Gio.nodeToBlock (.table rows) listDepth =
          some (.table (Gio.buildTableBlock rows).headers (Gio.buildTableBlock rows).rows
            (Gio.buildTableBlock rows).numCols)) := by
  refine ⟨?_, ?_, fun rows listDepth => rfl⟩
  · intro lines h
    simp [renderTableBlock, h]
  · intro content headerCells rowCells numCols hmem
    unfold renderMarkdown at hmem
    by_cases hc : trimSpace content = []
    · simp [hc] at hmem
    · simp only [hc, if_false, List.mem_filterMap] at hmem
      obtain ⟨b, -, hb⟩ := hmem
      unfold blockToObj at hb
      by_cases ht : b.isTable
      · simp only [ht, if_true] at hb
        unfold renderTableBlock at hb
        by_cases hz : (parseTable b.lines).numCols = 0
        · simp [hz] at hb
        · simp only [hz, if_false, Option.some.injEq] at hb
          cases hb
          exact hz
      · simp only [ht, if_false] at hb
        by_cases he : trimSpace (joinNL b.lines) = []
        · simp [he] at hb
        · simp [he] at hb

/-- Witness for C7 at concrete inputs: a lone separator row parses to
zero columns and renders to `nil`; a real two-column table appears in
`renderMarkdown`'s output with its non-zero column count. -/
theorem claim_C7_witness :
    renderTableBlock [chars "---|---"] = none ∧ (2 : Nat) ≠ 0 := by
  constructor
  · exact claim_C7.1 [chars "---|---"] (by decide)
  · exact claim_C7.2.1 (chars "a|b\n---|---\n1|2")
      [chars "a", chars "b"] [[chars "1", chars "2"]] 2 (by decide)

/-!
## Claim C1 — the separator-row condition
-/

theorem mem_dropWhile {α} {p : α → Bool} {a : α} : ∀ {l : List α}, a ∈ l.dropWhile p → a ∈ l := by
  intro l
  induction l with
  | nil => simp
  | cons x xs ih =>
    intro h
    rw [List.dropWhile_cons] at h
    by_cases hx : p x
    · simp only [hx, if_true] at h
      exact List.mem_cons_of_mem _ (ih h)
    · simp only [hx, if_false] at h
      exact h

theorem mem_trimLeftP {p : Char → Bool} {a : Char} {l : List Char}
    (h : a ∈ trimLeftP p l) : a ∈ l :=
  mem_dropWhile h

theorem mem_trimRightP {p : Char → Bool} {a : Char} {l : List Char}
    (h : a ∈ trimRightP p l) : a ∈ l := by
  unfold trimRightP at h
  rw [List.mem_reverse] at h
  exact List.mem_reverse.mp (mem_dropWhile h)

theorem mem_trimSpace {a : Char} {l : List Char} (h : a ∈ trimSpace l) : a ∈ l :=
  mem_trimLeftP (mem_trimRightP h)

theorem mem_trimChar {c a : Char} {l : List Char} (h : a ∈ trimChar c l) : a ∈ l :=
  mem_trimLeftP (mem_trimRightP h)

theorem goSplit_ne_nil (sep : Char) : ∀ l, goSplit sep l ≠ [] := by
  intro l
  cases l with
  | nil => simp [goSplit]
  | cons a rest =>
    unfold goSplit
    rcases hgs : goSplit sep rest with _ | ⟨h1, t1⟩
    · simp
    · by_cases hc : a = sep <;> simp [hc]

theorem mem_goSplit {sep a : Char} : ∀ {l cell : List Char},
    cell ∈ goSplit sep l → a ∈ cell → a ∈ l := by
  intro l
  induction l with
  | nil =>
    intro cell hc ha
    simp [goSplit] at hc
    subst hc
    simp at ha
  | cons x rest ih =>
    intro cell hc ha
    unfold goSplit at hc
    rcases hgs : goSplit sep rest with _ | ⟨h1, t1⟩
    · exact absurd hgs (goSplit_ne_nil sep rest)
    · rw [hgs] at hc
      dsimp only at hc
      have hmemh1 : h1 ∈ goSplit sep rest := by rw [hgs]; exact List.mem_cons_self h1 t1
      have hmemtl : ∀ z ∈ t1, z ∈ goSplit sep rest := by
        intro z hz; rw [hgs]; exact List.mem_cons_of_mem h1 hz
      by_cases hx : x = sep
      · rw [if_pos hx] at hc
        rcases List.mem_cons.mp hc with hc | hc
        · subst hc; simp at ha
        · rcases List.mem_cons.mp hc with hc2 | hc2
          · have hcell : cell ∈ goSplit sep rest := by rw [hc2]; exact hmemh1
            exact List.mem_cons_of_mem _ (ih hcell ha)
          · exact List.mem_cons_of_mem _ (ih (hmemtl cell hc2) ha)
      · rw [if_neg hx] at hc
        rcases List.mem_cons.mp hc with hc | hc
        · rw [hc] at ha
          rcases List.mem_cons.mp ha with h | h
          · rw [h]; exact List.mem_cons_self x rest
          · exact List.mem_cons_of_mem _ (ih hmemh1 h)
        · exact List.mem_cons_of_mem _ (ih (hmemtl cell hc) ha)

theorem cellOk_eq_specCellValid (cell : List Char) : cellOk cell = specCellValid cell := by
  unfold cellOk specCellValid
  rcases hc : trimSpace cell with _ | ⟨x, xs⟩
  · simp [hc]
  · simp only [hc]
    by_cases h2 : (x :: xs).all (fun ch => ch = '-' || ch = ':') <;>
      simp [h2, List.isEmpty]

theorem isSeparatorRow_eq_specAll (line : List Char) :
    isSeparatorRow line = specSeparatorRowAll line := by
  unfold isSeparatorRow specSeparatorRowAll
  by_cases hd : goContains '-' (trimSpace line) = true
  · simp only [hd, Bool.not_true, Bool.false_eq_true, if_false]
    by_cases h2 : trimChar '|' (trimSpace line) = []
    · rw [h2]
      simp only [if_true]
      decide
    · simp only [h2, if_false]
      rcases hcs : goSplit '|' (trimChar '|' (trimSpace line)) with _ | ⟨c, cs⟩
      · exact absurd hcs (goSplit_ne_nil _ _)
      · have hfun : cellOk = specCellValid := funext cellOk_eq_specCellValid
        simp [hfun, List.isEmpty]
  · have hd' : goContains '-' (trimSpace line) = false := by
      revert hd; cases goContains '-' (trimSpace line) <;> simp
    simp only [hd', Bool.not_false, if_true]
    rcases hcs : goSplit '|' (trimChar '|' (trimSpace line)) with _ | ⟨c, cs⟩
    · exact absurd hcs (goSplit_ne_nil _ _)
    · have hcv : specCellValid c = false := by
        by_contra hcv
        have hcv' : specCellValid c = true := by
          revert hcv; cases specCellValid c <;> simp
        unfold specCellValid at hcv'
        have hdc : goContains '-' (trimSpace c) = true := by
          simp only [Bool.and_eq_true] at hcv'
          exact hcv'.2
        have h1 : ('-' : Char) ∈ trimSpace c := List.mem_of_elem_eq_true hdc
        have h2 : ('-' : Char) ∈ trimChar '|' (trimSpace line) :=
          mem_goSplit (hcs ▸ List.mem_cons_self c cs) (mem_trimSpace h1)
        have h3 : ('-' : Char) ∈ trimSpace line := mem_trimChar h2
        have : goContains '-' (trimSpace line) = true := List.elem_eq_true_of_mem h3
        rw [this] at hd'
        exact Bool.true_eq_false.mp hd'
      simp [hcv]

/-- Counterexample to claim C1: the claim's condition strips AT MOST ONE
leading and one trailing `'|'`, but the code (`strings.Trim(t, "|")`)
strips ALL of them.  On `"||---||"` the code accepts (it sees the single
cell `---`), while the claim's condition rejects (it sees the cells
`"" | "---" | ""`, two of which are empty). -/
theorem claim_C1_counterexample :
    isSeparatorRow (chars "||---||") = true ∧
      specSeparatorRowOne (chars "||---||") = false := by decide

/-- Claim C1, amended: a line is classified as a table separator row iff,
after trimming whitespace and stripping ALL leading and trailing `'|'`
characters, splitting the remainder on `'|'` yields a non-empty sequence
of cells such that every cell, after trimming, is non-empty, consists
exclusively of `'-'` and `':'`, and contains at least one `'-'`; the
claim's examples all behave as stated. -/
theorem claim_C1 :
    (∀ line, isSeparatorRow line = specSeparatorRowAll line) ∧
      isSeparatorRow (chars "---|---") = true ∧
      isSeparatorRow (chars ":--|--:") = true ∧
      isSeparatorRow (chars "---") = true ∧
      isSeparatorRow (chars "-- |--") = true ∧
      isSeparatorRow (chars "|   |") = false ∧
      isSeparatorRow (chars "abc|---") = false :=
  ⟨isSeparatorRow_eq_specAll, by decide, by decide, by decide, by decide, by decide, by decide⟩

/-!
## Claim C5 — blocks partition the line sequence
-/

theorem groupRuns_join : ∀ (ps : List ((List Char) × Bool)) (b : Bool) (cur : List (List Char)),
    ((groupRuns b cur ps).map mdBlock.lines).flatten = cur ++ ps.map Prod.fst := by
  intro ps
  induction ps with
  | nil => intro b cur; simp [groupRuns]
  | cons p rest ih =>
    intro b cur
    obtain ⟨l, f⟩ := p
    unfold groupRuns
    by_cases hf : f = b
    · rw [if_pos hf, ih]
      simp
    · rw [if_neg hf]
      simp [ih]

theorem markFences_length (init : Bool) : ∀ ls, (markFences init ls).length = ls.length := by
  intro ls
  induction ls generalizing init with
  | nil => simp [markFences]
  | cons l ls ih => simp [markFences, ih]

theorem markAbove_length (lines : List (List Char)) :
    ∀ (i : Nat) (flags : List Bool), (markAbove lines flags i).length = flags.length := by
  intro i
  induction i with
  | zero => intro flags; rfl
  | succ j ih =>
    intro flags
    unfold markAbove
    by_cases hb : blankLine (lines.getD j [])
    · rw [if_pos hb]
    · rw [if_neg hb, ih, List.length_set]

theorem markBelow_length (lines : List (List Char)) :
    ∀ (fuel i : Nat) (flags : List Bool), (markBelow lines fuel flags i).length = flags.length := by
  intro fuel
  induction fuel with
  | zero => intro i flags; rfl
  | succ g ih =>
    intro i flags
    unfold markBelow
    by_cases hi : i < lines.length
    · rw [if_pos hi]
      by_cases hb : blankLine (lines.getD i [])
      · rw [if_pos hb]
      · rw [if_neg hb, ih, List.length_set]
    · rw [if_neg hi]

theorem markSep_length (lines : List (List Char)) (flags : List Bool) (sepIdx : Nat) :
    (markSep lines flags sepIdx).length = flags.length := by
  unfold markSep
  rw [markBelow_length, markAbove_length, List.length_set]

theorem tableFlags_length (lines : List (List Char)) :
    (tableFlags lines).length = lines.length := by
  unfold tableFlags
  have h : ∀ (idxs : List Nat) (flags : List Bool),
      (idxs.foldl (markSep lines) flags).length = flags.length := by
    intro idxs
    induction idxs with
    | nil => intro flags; rfl
    | cons i is ih => intro flags; rw [List.foldl_cons, ih, markSep_length]
  rw [h, List.length_replicate]

/-- Claim C5: `splitMarkdownBlocks` partitions the document's line
sequence — concatenating the lines of the returned blocks, in block
order, yields exactly the document's original line sequence (no line
duplicated, dropped, or reordered). -/
theorem claim_C5 (content : List Char) :
    ((splitMarkdownBlocks content).map mdBlock.lines).flatten = goSplit '\n' content := by
  unfold splitMarkdownBlocks
  rcases hl : goSplit '\n' content with _ | ⟨l0, rest⟩
  · exact absurd hl (goSplit_ne_nil _ _)
  · have hlen : (tableFlags (l0 :: rest)).length = rest.length + 1 := by
      rw [tableFlags_length]; rfl
    rcases hfl : tableFlags (l0 :: rest) with _ | ⟨f0, frest⟩
    · rw [hfl] at hlen; simp at hlen
    · rw [hfl] at hlen
      simp only [List.length_cons, Nat.add_right_cancel_iff] at hlen
      dsimp only
      rw [hfl]
      simp only [List.zip_cons_cons]
      rw [groupRuns_join]
      rw [List.map_fst_zip rest frest (by rw [hlen])]
      rfl

/-!
## Claims C3 and C4 — the table parser
-/

theorem parseTableStep_noPipe {st : PTState} {l : List Char} (h : goContains '|' l = false) :
    parseTableStep st l = st := by
  unfold parseTableStep
  rw [h]
  simp

theorem parseTableStep_sep {st : PTState} {l : List Char}
    (h1 : goContains '|' l = true) (h2 : isSeparatorRow l = true) :
    parseTableStep st l = { st with separatorSeen := true } := by
  unfold parseTableStep
  rw [h1, h2]
  simp

theorem parseTableStep_row_preSep {st : PTState} {l : List Char}
    (h1 : goContains '|' l = true) (h2 : isSeparatorRow l = false)
    (h3 : st.separatorSeen = false) :
    parseTableStep st l =
      { st with
        headers := parseTableRow l,
        numCols := (if (parseTableRow l).length > st.numCols
          then (parseTableRow l).length else st.numCols) } := by
  unfold parseTableStep
  rw [h1, h2, h3]
  simp
  split <;> rfl

theorem parseTableStep_row_postSep {st : PTState} {l : List Char}
    (h1 : goContains '|' l = true) (h2 : isSeparatorRow l = false)
    (h3 : st.separatorSeen = true) :
    parseTableStep st l =
      { st with
        dataRows := st.dataRows ++ [parseTableRow l],
        numCols := (if (parseTableRow l).length > st.numCols
          then (parseTableRow l).length else st.numCols) } := by
  unfold parseTableStep
  rw [h1, h2, h3]
  simp
  split <;> rfl

theorem headerCandidates_cons_skip {l : List Char} {ls : List (List Char)}
    (h : goContains '|' l = false) :
    headerCandidates (l :: ls) = headerCandidates ls := by
  unfold headerCandidates pipeLines
  rw [List.filter_cons, if_neg (by simp [h])]

theorem headerCandidates_cons_sep {l : List Char} {ls : List (List Char)}
    (h1 : goContains '|' l = true) (h2 : isSeparatorRow l = true) :
    headerCandidates (l :: ls) = [] := by
  unfold headerCandidates pipeLines
  rw [List.filter_cons, if_pos (by simp [h1])]
  rw [List.takeWhile_cons, if_neg (by simp [h2])]

theorem headerCandidates_cons_row {l : List Char} {ls : List (List Char)}
    (h1 : goContains '|' l = true) (h2 : isSeparatorRow l = false) :
    headerCandidates (l :: ls) = l :: headerCandidates ls := by
  unfold headerCandidates pipeLines
  rw [List.filter_cons, if_pos (by simp [h1])]
  rw [List.takeWhile_cons, if_pos (by simp [h2])]

theorem dataLines_cons_skip {l : List Char} {ls : List (List Char)}
    (h : goContains '|' l = false) :
    dataLines (l :: ls) = dataLines ls := by
  unfold dataLines pipeLines
  rw [List.filter_cons, if_neg (by simp [h])]

theorem dataLines_cons_row {l : List Char} {ls : List (List Char)}
    (h1 : goContains '|' l = true) (h2 : isSeparatorRow l = false) :
    dataLines (l :: ls) = dataLines ls := by
  unfold dataLines pipeLines
  rw [List.filter_cons, if_pos (by simp [h1])]
  rw [List.dropWhile_cons, if_pos (by simp [h2])]

theorem dataLines_cons_sep {l : List Char} {ls : List (List Char)}
    (h1 : goContains '|' l = true) (h2 : isSeparatorRow l = true) :
    dataLines (l :: ls) =
      ls.filter (fun l => goContains '|' l && !(isSeparatorRow l)) := by
  unfold dataLines pipeLines
  rw [List.filter_cons, if_pos (by simp [h1])]
  rw [List.dropWhile_cons, if_neg (by simp [h2])]
  rw [List.filter_cons, if_neg (by simp [h2])]
  rw [List.filter_filter]
  exact List.filter_congr fun a _ => by rw [Bool.and_comm]

theorem bool_ne_true {b : Bool} (h : ¬ b = true) : b = false := by
  revert h; cases b <;> simp

theorem ptFold_headers : ∀ (ls : List (List Char)) (st : PTState),
    (ls.foldl parseTableStep st).headers =
      if st.separatorSeen then st.headers
      else ((headerCandidates ls).map parseTableRow).getLastD st.headers := by
  intro ls
  induction ls with
  | nil =>
    intro st
    cases hs : st.separatorSeen <;> simp [hs, headerCandidates, pipeLines]
  | cons l ls ih =>
    intro st
    rw [List.foldl_cons]
    by_cases hp : goContains '|' l = true
    · by_cases hsep : isSeparatorRow l = true
      · rw [parseTableStep_sep hp hsep, ih]
        cases hs : st.separatorSeen
        · rw [headerCandidates_cons_sep hp hsep]
          simp [hs]
        · simp [hs]
      · have hsep' : isSeparatorRow l = false := bool_ne_true hsep
        cases hs : st.separatorSeen
        · rw [parseTableStep_row_preSep hp hsep' hs, ih,
            headerCandidates_cons_row hp hsep']
          simp only [hs, Bool.false_eq_true, if_false, List.map_cons, List.getLastD_cons]
        · rw [parseTableStep_row_postSep hp hsep' hs, ih]
          simp [hs]
    · have hp' : goContains '|' l = false := bool_ne_true hp
      rw [parseTableStep_noPipe hp', ih, headerCandidates_cons_skip hp']

theorem ptFold_dataRows : ∀ (ls : List (List Char)) (st : PTState),
    (ls.foldl parseTableStep st).dataRows =
      st.dataRows ++
        (if st.separatorSeen
          then (ls.filter fun l => goContains '|' l && !(isSeparatorRow l)).map parseTableRow
          else (dataLines ls).map parseTableRow) := by
  intro ls
  induction ls with
  | nil =>
    intro st
    cases hs : st.separatorSeen <;> simp [hs, dataLines, pipeLines]
  | cons l ls ih =>
    intro st
    rw [List.foldl_cons]
    by_cases hp : goContains '|' l = true
    · by_cases hsep : isSeparatorRow l = true
      · rw [parseTableStep_sep hp hsep, ih]
        cases hs : st.separatorSeen
        · rw [dataLines_cons_sep hp hsep]
          simp [hs]
        · simp [hs, List.filter_cons, hp, hsep]
      · have hsep' : isSeparatorRow l = false := bool_ne_true hsep
        cases hs : st.separatorSeen
        · rw [parseTableStep_row_preSep hp hsep' hs, ih,
            dataLines_cons_row hp hsep']
          simp [hs]
        · rw [parseTableStep_row_postSep hp hsep' hs, ih]
          simp [hs, List.filter_cons, hp, hsep']
    · have hp' : goContains '|' l = false := bool_ne_true hp
      rw [parseTableStep_noPipe hp', ih, dataLines_cons_skip hp']
      cases hs : st.separatorSeen
      · simp [hs]
      · simp [hs, List.filter_cons, hp']

theorem ptFold_numCols : ∀ (ls : List (List Char)) (st : PTState),
    (ls.foldl parseTableStep st).numCols =
      ((ls.filter fun l => goContains '|' l && !(isSeparatorRow l)).map
          fun l => (parseTableRow l).length).foldl
        (fun m n => if n > m then n else m) st.numCols := by
  intro ls
  induction ls with
  | nil => intro st; rfl
  | cons l ls ih =>
    intro st
    rw [List.foldl_cons]
    by_cases hp : goContains '|' l = true
    · by_cases hsep : isSeparatorRow l = true
      · rw [parseTableStep_sep hp hsep, ih]
        simp [List.filter_cons, hp, hsep]
      · have hsep' : isSeparatorRow l = false := bool_ne_true hsep
        cases hs : st.separatorSeen
        · rw [parseTableStep_row_preSep hp hsep' hs, ih]
          simp [List.filter_cons, hp, hsep']
        · rw [parseTableStep_row_postSep hp hsep' hs, ih]
          simp [List.filter_cons, hp, hsep']
    · have hp' : goContains '|' l = false := bool_ne_true hp
      rw [parseTableStep_noPipe hp', ih]
      simp [List.filter_cons, hp']

theorem ptFold_headers_le : ∀ (ls : List (List Char)) (st : PTState),
    st.headers.length ≤ st.numCols →
    (ls.foldl parseTableStep st).headers.length ≤ (ls.foldl parseTableStep st).numCols := by
  intro ls
  induction ls with
  | nil => intro st h; exact h
  | cons l ls ih =>
    intro st h
    rw [List.foldl_cons]
    by_cases hp : goContains '|' l = true
    · by_cases hsep : isSeparatorRow l = true
      · rw [parseTableStep_sep hp hsep]
        exact ih _ h
      · have hsep' : isSeparatorRow l = false := bool_ne_true hsep
        cases hs : st.separatorSeen
        · rw [parseTableStep_row_preSep hp hsep' hs]
          apply ih
          simp only []
          split <;> omega
        · rw [parseTableStep_row_postSep hp hsep' hs]
          apply ih
          simp only []
          split <;> omega
    · have hp' : goContains '|' l = false := bool_ne_true hp
      rw [parseTableStep_noPipe hp']
      exact ih _ h

theorem parseTable_eq_fold (lines : List (List Char)) :
    parseTable lines = lines.foldl parseTableStep ⟨false, [], [], 0⟩ := by
  unfold parseTable
  have h := ptFold_headers_le lines ⟨false, [], [], 0⟩ (by simp)
  dsimp only
  rw [if_neg (Nat.not_lt.mpr h)]

theorem ifGt_eq_max : (fun (m n : Nat) => if n > m then n else m) = fun m n => max m n := by
  funext m n
  rcases Nat.lt_or_ge m n with h | h
  · rw [if_pos h, Nat.max_eq_right (Nat.le_of_lt h)]
  · rw [if_neg (Nat.not_lt.mpr h), Nat.max_eq_left h]

theorem gioStep_header {tb : Gio.TB} {r : Gio.TableRow} (h : r.isHeader = true) :
    Gio.buildTableStep tb r =
      { tb with
        headers := r.cells.map Gio.extractText,
        numCols := (if (r.cells.map Gio.extractText).length > tb.numCols
          then (r.cells.map Gio.extractText).length else tb.numCols) } := by
  unfold Gio.buildTableStep
  rw [h]
  simp
  split <;> simp

theorem gioStep_data {tb : Gio.TB} {r : Gio.TableRow} (h : r.isHeader = false) :
    Gio.buildTableStep tb r =
      { tb with
        rows := tb.rows ++ [r.cells.map Gio.extractText],
        numCols := (if (r.cells.map Gio.extractText).length > tb.numCols
          then (r.cells.map Gio.extractText).length else tb.numCols) } := by
  unfold Gio.buildTableStep
  rw [h]
  simp
  split <;> simp

theorem gioFold_numCols : ∀ (rows : List Gio.TableRow) (tb : Gio.TB),
    (rows.foldl Gio.buildTableStep tb).numCols =
      (rows.map fun r => (r.cells.map Gio.extractText).length).foldl
        (fun m n => if n > m then n else m) tb.numCols := by
  intro rows
  induction rows with
  | nil => intro tb; rfl
  | cons r rs ih =>
    intro tb
    rw [List.foldl_cons]
    cases h : r.isHeader
    · rw [gioStep_data h, ih]
      simp
    · rw [gioStep_header h, ih]
      simp

theorem gioFold_rows : ∀ (rows : List Gio.TableRow) (tb : Gio.TB),
    (rows.foldl Gio.buildTableStep tb).rows =
      tb.rows ++ (rows.filter fun r => !r.isHeader).map fun r => r.cells.map Gio.extractText := by
  intro rows
  induction rows with
  | nil => intro tb; simp
  | cons r rs ih =>
    intro tb
    rw [List.foldl_cons]
    cases h : r.isHeader
    · rw [gioStep_data h, ih]
      simp [List.filter_cons, h]
    · rw [gioStep_header h, ih]
      simp [List.filter_cons, h]

/-- Counterexample to claim C3: in `parseTable` every pre-separator
non-separator row OVERWRITES the header, so with two rows above the
separator the header is the last of them, not the first.  Here the
first `'|'`-containing non-separator row is `a|b`, yet the stored
header row is `c|d`. -/
theorem claim_C3_counterexample :
    (parseTable [chars "a|b", chars "c|d", chars "---|---", chars "x|y"]).headers =
        [chars "c", chars "d"] ∧
      ((pipeLines [chars "a|b", chars "c|d", chars "---|---", chars "x|y"]).filter
          fun l => !(isSeparatorRow l)).headD [] = chars "a|b" ∧
      parseTableRow (chars "a|b") = [chars "a", chars "b"] ∧
      (parseTable [chars "a|b", chars "c|d", chars "---|---", chars "x|y"]).headers ≠
        parseTableRow (chars "a|b") := by decide

/-- Claim C3, amended: in `parseTable`, considering only lines that
contain `'|'`: the LAST non-separator row encountered before the first
separator row becomes the header row (each candidate overwrites the
previous one); every separator row is consumed and contributes neither
header nor data cells; and every non-separator row after the first
separator row is appended to the data-row sequence in document
order. -/
theorem claim_C3 :
    (∀ lines, (parseTable lines).headers =
        ((headerCandidates lines).map parseTableRow).getLastD []) ∧
      ∀ lines, (parseTable lines).dataRows = (dataLines lines).map parseTableRow := by
  constructor
  · intro lines
    rw [parseTable_eq_fold, ptFold_headers]
    simp
  · intro lines
    rw [parseTable_eq_fold, ptFold_dataRows]
    simp

/-- Counterexample to claim C4: `parseTable` tracks the maximum cell
count over ALL non-separator `'|'`-rows, including header candidates
that are later overwritten — here the discarded candidate `a|b|c|d`
makes the stored column count 4, while the maximum over the stored
header row and the data rows is only 2. -/
theorem claim_C4_counterexample :
    (parseTable [chars "a|b|c|d", chars "x|y", chars "---|---", chars "p|q"]).numCols = 4 ∧
      max (parseTable [chars "a|b|c|d", chars "x|y", chars "---|---", chars "p|q"]).headers.length
          (maxCells (parseTable [chars "a|b|c|d", chars "x|y", chars "---|---",
            chars "p|q"]).dataRows) = 2 ∧
      (parseTable [chars "a|b|c|d", chars "x|y", chars "---|---", chars "p|q"]).numCols ≠
        max (parseTable [chars "a|b|c|d", chars "x|y", chars "---|---",
            chars "p|q"]).headers.length
          (maxCells (parseTable [chars "a|b|c|d", chars "x|y", chars "---|---",
            chars "p|q"]).dataRows) := by decide

/-- Claim C4, amended: the stored column count equals the maximum cell
count across ALL non-separator `'|'`-rows processed (binary variant) —
respectively across all rows of the table node (structural variant) —
which includes overwritten header candidates and so can exceed the
maximum over the stored header row and data rows; data rows are stored
exactly as parsed, with no padding added at parse time; the claim's
ragged example (`a|b|c` over `x|y`) yields column count 3 and a stored
data row of exactly two cells. -/
theorem claim_C4 :
    (∀ lines, (parseTable lines).numCols = maxCells (processedRows lines)) ∧
      (∀ lines, (parseTable lines).dataRows = (dataLines lines).map parseTableRow) ∧
      (∀ rows, (Gio.buildTableBlock rows).numCols =
        maxCells (rows.map fun r => r.cells.map Gio.extractText)) ∧
      (∀ rows, (Gio.buildTableBlock rows).rows =
        (rows.filter fun r => !r.isHeader).map fun r => r.cells.map Gio.extractText) ∧
      (parseTable [chars "a|b|c", chars "---|---|---", chars "x|y"]).numCols = 3 ∧
      (parseTable [chars "a|b|c", chars "---|---|---", chars "x|y"]).dataRows =
        [[chars "x", chars "y"]] := by
  refine ⟨?_, ?_, ?_, ?_, by decide, by decide⟩
  · intro lines
    rw [parseTable_eq_fold, ptFold_numCols, ifGt_eq_max]
    unfold maxCells processedRows
    rw [List.foldl_map, List.foldl_map]
  · intro lines
    rw [parseTable_eq_fold, ptFold_dataRows]
    simp
  · intro rows
    unfold Gio.buildTableBlock
    rw [gioFold_numCols, ifGt_eq_max]
    unfold maxCells
    rw [List.foldl_map, List.foldl_map]
  · intro rows
    unfold Gio.buildTableBlock
    rw [gioFold_rows]
    rfl

/-!
## Claim C8 — list nodes
-/

theorem listLoop_ordered : ∀ (cs : List Gio.AstNode) (depth c : Nat),
    Gio.listLoop true depth c cs =
      (List.enumFrom c (Gio.itemContents cs)).map
        fun p => ⟨depth, Gio.numBullet p.1, Gio.extractText p.2⟩ := by
  intro cs
  induction cs with
  | nil => intro depth c; rfl
  | cons n rest ih =>
    intro depth c
    cases n with
    | listItem il =>
      rw [show Gio.listLoop true depth c (.listItem il :: rest) =
          ⟨depth, Gio.numBullet c, Gio.extractText il⟩ ::
            Gio.listLoop true depth (c + 1) rest from rfl, ih]
      rfl
    | heading lv il => exact (ih depth c).trans (by rfl)
    | paragraph il => exact (ih depth c).trans (by rfl)
    | fencedCode raw => exact (ih depth c).trans (by rfl)
    | indentedCode raw => exact (ih depth c).trans (by rfl)
    | thematicBreak => exact (ih depth c).trans (by rfl)
    | blockquote il => exact (ih depth c).trans (by rfl)
    | list o s ch => exact (ih depth c).trans (by rfl)
    | table rows => exact (ih depth c).trans (by rfl)
    | other => exact (ih depth c).trans (by rfl)

theorem listLoop_unordered : ∀ (cs : List Gio.AstNode) (depth c : Nat),
    Gio.listLoop false depth c cs =
      (Gio.itemContents cs).map
        fun il => ⟨depth, Gio.dotBullet, Gio.extractText il⟩ := by
  intro cs
  induction cs with
  | nil => intro depth c; rfl
  | cons n rest ih =>
    intro depth c
    cases n with
    | listItem il =>
      rw [show Gio.listLoop false depth c (.listItem il :: rest) =
          ⟨depth, Gio.dotBullet, Gio.extractText il⟩ ::
            Gio.listLoop false depth c rest from rfl, ih]
      rfl
    | heading lv il => exact (ih depth c).trans (by rfl)
    | paragraph il => exact (ih depth c).trans (by rfl)
    | fencedCode raw => exact (ih depth c).trans (by rfl)
    | indentedCode raw => exact (ih depth c).trans (by rfl)
    | thematicBreak => exact (ih depth c).trans (by rfl)
    | blockquote il => exact (ih depth c).trans (by rfl)
    | list o s ch => exact (ih depth c).trans (by rfl)
    | table rows => exact (ih depth c).trans (by rfl)
    | other => exact (ih depth c).trans (by rfl)

/-- Claim C8: in the structural variant, a markdown list node maps to
one ListGroup with exactly one ListItem per list-item child; unordered
items are bulleted "• " and ordered items "1. ", "2. ", ... by a
1-based counter in child order (`List.enumFrom 1`), independent of the
list node's source `Start` numeral, which `nodeToBlock` never reads;
the `1. foo` / `2. bar` scenario produces exactly the two expected
items. -/
theorem claim_C8 (ordered : Bool) (start start2 depth : Nat) (children : List Gio.AstNode) :
    Gio.nodeToBlock (.list ordered start children) depth =
      some (.listGroup (if ordered
        then (List.enumFrom 1 (Gio.itemContents children)).map
          fun p => ⟨depth, Gio.numBullet p.1, Gio.extractText p.2⟩
        else (Gio.itemContents children).map
          fun il => ⟨depth, Gio.dotBullet, Gio.extractText il⟩)) ∧
      Gio.nodeToBlock (.list ordered start children) depth =
        Gio.nodeToBlock (.list ordered start2 children) depth ∧
      Gio.nodeToBlock (.list true 1 [.listItem (Gio.txt "foo"), .listItem (Gio.txt "bar")]) 0 =
        some (.listGroup [⟨0, chars "1. ", chars "foo"⟩, ⟨0, chars "2. ", chars "bar"⟩]) := by
  refine ⟨?_, rfl, by decide⟩
  cases ordered
  · rw [Gio.nodeToBlock, listLoop_unordered]
    rfl
  · rw [Gio.nodeToBlock, listLoop_ordered]
    rfl

/-!
## Claims C10 and C2 — the fence classifier
-/

theorem markFences_getD : ∀ (ls : List (List Char)) (init : Bool) (i : Nat),
    i < ls.length →
    (markFences init ls).getD i false =
      (ls.take (i + 1)).foldl (fun s l => if isFenceToggle l then !s else s) init := by
  intro ls
  induction ls with
  | nil => intro init i h; simp at h
  | cons l ls ih =>
    intro init i h
    cases i with
    | zero => rfl
    | succ j =>
      have hj : j < ls.length := by simpa using h
      show (markFences (if isFenceToggle l then !init else init) ls).getD j false = _
      rw [ih _ j hj]
      rfl

theorem fenceFlags_getD (lines : List (List Char)) (i : Nat) (h : i < lines.length) :
    (fenceFlags lines).getD i false = fenceStateAfter lines (i + 1) :=
  markFences_getD lines false i h

theorem fenceStateAfter_succ (lines : List (List Char)) (i : Nat) (h : i < lines.length) :
    fenceStateAfter lines (i + 1) =
      (if isFenceToggle (lines.getD i []) then !(fenceStateAfter lines i)
       else fenceStateAfter lines i) := by
  unfold fenceStateAfter
  rw [List.take_succ]
  have hx : lines[i]? = some (lines.getD i []) := by
    rw [List.getElem?_eq_getElem h, List.getD_eq_getElem lines [] h]
  rw [hx]
  simp [List.foldl_append]

theorem separatorFlags_getD (lines : List (List Char)) (i : Nat) (h : i < lines.length) :
    (separatorFlags lines).getD i false =
      (!((fenceFlags lines).getD i false) && isSeparatorRow (lines.getD i [])) := by
  unfold separatorFlags
  have hlen : i < ((List.range lines.length).map fun i =>
      !((fenceFlags lines).getD i false) && isSeparatorRow (lines.getD i [])).length := by
    simpa using h
  rw [List.getD_eq_getElem _ _ hlen, List.getElem_map, List.getElem_range]

theorem dropWhile_append_singleton {p : Char → Bool} {a : Char} (h : p a = false) :
    ∀ xs : List Char, ∃ ys, (xs ++ [a]).dropWhile p = ys ++ [a] := by
  intro xs
  induction xs with
  | nil => exact ⟨[], by simp [List.dropWhile_cons, h]⟩
  | cons x xs ih =>
    by_cases hx : p x = true
    · obtain ⟨ys, hys⟩ := ih
      exact ⟨ys, by simp [List.dropWhile_cons, hx, hys]⟩
    · have hx' : p x = false := bool_ne_true hx
      exact ⟨x :: xs, by simp [List.dropWhile_cons, hx']⟩

theorem trimRightP_cons {p : Char → Bool} {a : Char} (h : p a = false) (xs : List Char) :
    ∃ ys, trimRightP p (a :: xs) = a :: ys := by
  unfold trimRightP
  obtain ⟨ys, hys⟩ := dropWhile_append_singleton h xs.reverse
  rw [List.reverse_cons, hys]
  exact ⟨ys.reverse, by simp⟩

theorem trimLeftP_cons {p : Char → Bool} {a : Char} (h : p a = false) (xs : List Char) :
    trimLeftP p (a :: xs) = a :: xs := by
  unfold trimLeftP
  simp [List.dropWhile_cons, h]

theorem trimSpace_cons {a : Char} (h : isSpaceChar a = false) (xs : List Char) :
    ∃ ys, trimSpace (a :: xs) = a :: ys := by
  unfold trimSpace
  rw [trimLeftP_cons h]
  exact trimRightP_cons h xs

theorem head_goSplit {sep b : Char} (hb : ¬ b = sep) (zs : List Char) :
    ∃ h1 t1, goSplit sep (b :: zs) = (b :: h1) :: t1 := by
  rcases hgs : goSplit sep zs with _ | ⟨h, t⟩
  · exact absurd hgs (goSplit_ne_nil _ _)
  · refine ⟨h, t, ?_⟩
    unfold goSplit
    rw [hgs]
    dsimp only
    rw [if_neg hb]

theorem cellOk_head_bad {b : Char} (hsp : isSpaceChar b = false)
    (hbc : (b = '-' || b = ':' : Bool) = false) (h1 : List Char) :
    cellOk (b :: h1) = false := by
  unfold cellOk
  obtain ⟨ys, hys⟩ := trimSpace_cons hsp h1
  rw [hys]
  simp [List.all_cons, hbc]

theorem toggle_not_separatorRow {line : List Char} (h : isFenceToggle line = true) :
    isSeparatorRow line = false := by
  unfold isFenceToggle startsWith at h
  rw [Bool.or_eq_true] at h
  obtain ⟨b, rest, hbt, hbval⟩ :
      ∃ b rest, trimSpace line = b :: rest ∧ (b = Char.ofNat 96 ∨ b = '~') := by
    rcases h with h | h
    · rw [List.isPrefixOf_iff_prefix] at h
      obtain ⟨s, hs⟩ := h
      exact ⟨Char.ofNat 96, Char.ofNat 96 :: Char.ofNat 96 :: s, by rw [← hs]; rfl, Or.inl rfl⟩
    · rw [List.isPrefixOf_iff_prefix] at h
      obtain ⟨s, hs⟩ := h
      exact ⟨'~', '~' :: '~' :: s, by rw [← hs]; rfl, Or.inr rfl⟩
  have hpipe : (decide (b = '|')) = false := by
    rcases hbval with hb | hb <;> subst hb <;> decide
  have hsp : isSpaceChar b = false := by
    rcases hbval with hb | hb <;> subst hb <;> decide
  have hbc : (b = '-' || b = ':' : Bool) = false := by
    rcases hbval with hb | hb <;> subst hb <;> decide
  have hbne : ¬ b = '|' := by
    rcases hbval with hb | hb <;> subst hb <;> decide
  unfold isSeparatorRow
  rw [hbt]
  cases hgc : goContains '-' (b :: rest)
  · simp [hgc]
  · simp only [hgc, Bool.not_true, Bool.false_eq_true, if_false]
    obtain ⟨ys, hys⟩ : ∃ ys, trimChar '|' (b :: rest) = b :: ys := by
      unfold trimChar
      rw [trimLeftP_cons hpipe]
      exact trimRightP_cons hpipe rest
    rw [hys]
    rw [if_neg (by simp)]
    obtain ⟨h1, t1, hsplit⟩ := head_goSplit hbne ys
    rw [hsplit, List.all_cons, cellOk_head_bad hsp hbc h1]
    rfl

/-- Claim C10: the fence classifier stores the POST-toggle state on
every toggle line — a line that opens a fence is itself marked
`inFence = true`, while a line that closes a fence is marked
`inFence = false`; consequently separator-row detection is suppressed
on fence-opening lines and runs on fence-closing lines. -/
theorem claim_C10 (lines : List (List Char)) (i : Nat) (h : i < lines.length)
    (ht : isFenceToggle (lines.getD i []) = true) :
    (fenceFlags lines).getD i false = !(fenceStateAfter lines i) ∧
      (fenceStateAfter lines i = false → (separatorFlags lines).getD i false = false) ∧
      (fenceStateAfter lines i = true →
        (separatorFlags lines).getD i false = isSeparatorRow (lines.getD i [])) := by
  have hff : (fenceFlags lines).getD i false = !(fenceStateAfter lines i) := by
    rw [fenceFlags_getD lines i h, fenceStateAfter_succ lines i h, if_pos ht]
  refine ⟨hff, ?_, ?_⟩
  · intro hpre
    rw [separatorFlags_getD lines i h, hff, hpre]
    rfl
  · intro hpre
    rw [separatorFlags_getD lines i h, hff, hpre]
    rfl

/-- Witness for C10: in the two-line document `x` / `` ```go ``, line 1
opens a fence (pre-toggle state `false`), is itself flagged in-fence,
and separator detection is suppressed on it. -/
theorem claim_C10_witness :
    ((fenceFlags [chars "x", chars "```go"]).getD 1 false =
        !(fenceStateAfter [chars "x", chars "```go"] 1)) ∧
      fenceStateAfter [chars "x", chars "```go"] 1 = false ∧
      (separatorFlags [chars "x", chars "```go"]).getD 1 false = false := by
  have h := claim_C10 [chars "x", chars "```go"] 1 (by decide) (by decide)
  exact ⟨h.1, by decide, h.2.1 (by decide)⟩

/-- Counterexample to claim C2: in the document
`` ``` `` / `a|b` / `` ``` `` / `x|y` / `---|---` the fences are
balanced (pass 1 flags `[true, true, false, false, false]`, lines 0 and
2 are the toggles) and line 1 `a|b` lies strictly between them, yet the
whole document — the fenced `a|b` line included — ends up in a single
`isTable = true` block: the upward walk of pass 3 from the separator
row at index 4 crosses the fence-closing line because it only stops at
blank lines. -/
theorem claim_C2_counterexample :
    fenceFlags (goSplit '\n' (chars "```\na|b\n```\nx|y\n---|---")) =
        [true, true, false, false, false] ∧
      isFenceToggle ((goSplit '\n' (chars "```\na|b\n```\nx|y\n---|---")).getD 0 []) = true ∧
      isFenceToggle ((goSplit '\n' (chars "```\na|b\n```\nx|y\n---|---")).getD 2 []) = true ∧
      goContains '|' ((goSplit '\n' (chars "```\na|b\n```\nx|y\n---|---")).getD 1 []) = true ∧
      splitMarkdownBlocks (chars "```\na|b\n```\nx|y\n---|---") =
        [⟨true, goSplit '\n' (chars "```\na|b\n```\nx|y\n---|---")⟩] := by decide

/-- Claim C2, amended: every line between a fence-open toggle and its
matching fence-close toggle (inclusive) — i.e. every line flagged
in-fence plus every toggle line — is never classified as a SEPARATOR
ROW by `splitMarkdownBlocks`; such a line can, however, still be marked
as a table line when a separator row outside the fence is connected to
it by a run of non-blank lines (see the counterexample). -/
theorem claim_C2 (lines : List (List Char)) (i : Nat) (h : i < lines.length)
    (hio : (fenceFlags lines).getD i false = true ∨ isFenceToggle (lines.getD i []) = true) :
    (separatorFlags lines).getD i false = false := by
  rw [separatorFlags_getD lines i h]
  rcases hio with hf | ht
  · rw [hf]
    rfl
  · rw [toggle_not_separatorRow ht]
    simp

/-- Witness for C2 at the concrete document `` ``` `` / `a|b` /
`` ``` ``: line 1 is flagged in-fence and is not a separator row. -/
theorem claim_C2_witness :
    (fenceFlags (goSplit '\n' (chars "```\na|b\n```"))).getD 1 false = true ∧
      (separatorFlags (goSplit '\n' (chars "```\na|b\n```"))).getD 1 false = false :=
  ⟨by decide,
    claim_C2 (goSplit '\n' (chars "```\na|b\n```")) 1 (by decide) (Or.inl (by decide))⟩
